import Mathlib

/-!
Verification of the chunked-upload subsystem of fluxlocal-storage.

The definitions below are a shallow embedding of the relevant source code:
the server endpoints `POST /api/check-quota`, `POST /api/upload/complete`
(database helpers included) and the client-side transfer queue of
`FileSystemContext.tsx` (splitter, retry policy, queue scheduling,
cancellation, clearing).  Machine numbers are modelled as `Int`/`Nat`,
JavaScript request-body values by `JVal`, and the file system and database
by explicit association lists inside `ServerState`.
-/

/-- Model of a JavaScript request-body field value: an integral number, a
string, or an absent (`undefined`) field. -/
inductive JVal where
  | num (n : Int)
  | str (s : String)
  | undef
deriving DecidableEq, Repr

/-- JavaScript falsiness on the modelled value space: the number `0`, the
empty string and `undefined` are falsy (`!v` is true on them). -/
def JVal.falsy : JVal → Bool
  | .num n => n = 0
  | .str s => s = ""
  | .undef => true

/-- Numeric value of a list of decimal digit characters. -/
def digitsToNat (ds : List Char) : Nat :=
  ds.foldl (fun a c => a * 10 + (c.toNat - 48)) 0

/-- Model of JavaScript `parseInt(s) || 0` on a string: parse an optional
minus sign and the longest leading run of decimal digits; a string with no
leading digits parses to `NaN`, which `|| 0` turns into `0`. -/
def parseIntStr (s : String) : Int :=
  match s.data with
  | '-' :: rest =>
      let ds := rest.takeWhile Char.isDigit
      if ds.isEmpty then 0 else -(digitsToNat ds : Int)
  | cs =>
      let ds := cs.takeWhile Char.isDigit
      if ds.isEmpty then 0 else (digitsToNat ds : Int)

/-- Model of `parseInt(v) || 0` as the server applies it to a body field:
an integral number parses to itself, a string through `parseIntStr`, and
`undefined` to `NaN`, which `|| 0` turns into `0`. -/
def parseIntJ : JVal → Int
  | .num n => n
  | .str s => parseIntStr s
  | .undef => 0

/-- Row of the `users` table (the columns the upload path reads). -/
structure UserRec where
  id : String
  storage_limit : Int
deriving DecidableEq, Repr

/-- Row of the `files` table. -/
structure FileRec where
  id : String
  user_id : String
  parent_id : Option String
  name : String
  ftype : String
  size : Int
  path : Option String
  mime_type : String
  created_at : Int
deriving DecidableEq, Repr

/-- One stored chunk file `uploads/temp/<uploadId>/part_<index>`. -/
structure ChunkRec where
  uploadId : String
  index : Nat
  bytes : List Nat
deriving DecidableEq, Repr

/-- Server-side state: the two database tables the upload path touches, the
temporary chunk store, and the destination file system (path to bytes). -/
structure ServerState where
  users : List UserRec
  files : List FileRec
  temp : List ChunkRec
  disk : List (String × List Nat)
deriving DecidableEq, Repr

/-- The consumption query shared by both quota checks:
`SELECT COALESCE(SUM(size), 0) FROM files WHERE user_id = ? AND type = "file"`
— the sum of sizes of the owner's committed non-folder entries. -/
def usedSpace (files : List FileRec) (uid : String) : Int :=
  ((files.filter (fun f => f.user_id = uid && f.ftype = "file")).map (fun f => f.size)).sum

/-- Query `SELECT storage_limit FROM users WHERE id = ?`. -/
def findUser (users : List UserRec) (uid : String) : Option UserRec :=
  users.find? (fun u => u.id = uid)

/-- Lookup `fs.existsSync`/`fs.createReadStream` on `uploads/temp/<uid>/part_<i>`. -/
def getChunk (temp : List ChunkRec) (uid : String) (i : Nat) : Option (List Nat) :=
  (temp.find? (fun c => c.uploadId = uid && c.index = i)).map (fun c => c.bytes)

/-- Model of `fs.unlink` of one chunk file after it has been streamed. -/
def removeChunk (temp : List ChunkRec) (uid : String) (i : Nat) : List ChunkRec :=
  temp.filter (fun c => !(c.uploadId = uid && c.index = i))

/-- Model of `fs.rmSync(tempDir, { recursive: true, force: true })`: drop every
stored chunk of one upload session. -/
def removeSession (temp : List ChunkRec) (uid : String) : List ChunkRec :=
  temp.filter (fun c => !(c.uploadId = uid))

/-- Contents of the destination file at a path, when one exists. -/
def diskGet (disk : List (String × List Nat)) (p : String) : Option (List Nat) :=
  (disk.find? (fun e => e.1 = p)).map (fun e => e.2)

/-- Model of `fs.createWriteStream` (create or truncate) followed by the bytes the
stream received: the path now holds exactly those bytes. -/
def diskSet (disk : List (String × List Nat)) (p : String) (bs : List Nat) :
    List (String × List Nat) :=
  (p, bs) :: disk.filter (fun e => !(e.1 = p))

/-- Path `path.join(process.cwd(), 'uploads', userId)` with the working directory
elided. -/
def rootPath (uid : String) : String := "uploads/" ++ uid

/-- Model of `path.join` of two segments. -/
def pathJoin (a b : String) : String := a ++ "/" ++ b

/-- Model of `getPhysicalPath`: resolve a folder id to a directory path.
The source recurses through `parent_id` links; the recursion is bounded
here by a fuel argument (the source has no cycle guard). -/
def getPhysicalPath (files : List FileRec) (uid : String) :
    Nat → Option String → String
  | _, none => rootPath uid
  | fuel, some fid =>
    if fid = "" ∨ fid = "root" then rootPath uid
    else
      match files.find? (fun f => f.id = fid) with
      | none => rootPath uid
      | some folder =>
        if (folder.path.getD "") ≠ "" then folder.path.getD ""
        else
          match fuel with
          | 0 => rootPath uid
          | k + 1 => pathJoin (getPhysicalPath files uid k folder.parent_id) folder.name

/-- The merge loop of `/api/upload/complete`: for `fuel` many ordinals
starting at `i`, stream chunk `i` into the destination and unlink it, or
stop at the first missing ordinal.  Returns the remaining chunk store, the
bytes written to the destination so far, and the missing ordinal when the
loop aborted. -/
def mergeLoop (uid : String) : List ChunkRec → Nat → Nat →
    List ChunkRec × List Nat × Option Nat
  | temp, 0, _ => (temp, [], none)
  | temp, fuel + 1, i =>
    match getChunk temp uid i with
    | none => (temp, [], some i)
    | some bs =>
      let r := mergeLoop uid (removeChunk temp uid i) fuel (i + 1)
      (r.1, bs ++ r.2.1, r.2.2)

/-- Responses of `POST /api/upload/complete`.  `badRequest` is the 400
missing-required-fields rejection, `quotaExceeded` the distinguished 413
capacity response carrying the used/total/available/size figures,
`serverError` the 500 of the catch handler, and `ok` the 200 carrying the
new catalog entry. -/
inductive CompleteResp where
  | badRequest
  | userNotFound
  | quotaExceeded (usedSpace totalSpace availableSpace fileSize : Int)
  | serverError
  | ok (entry : FileRec)
deriving DecidableEq, Repr

/-- Whether a completion response is the distinguished 413 capacity
rejection. -/
def CompleteResp.isQuotaRejected : CompleteResp → Bool
  | .quotaExceeded _ _ _ _ => true
  | _ => false

/-- Model of the `POST /api/upload/complete` handler.  `userId` is the
`x-user-id` header (empty string when falsy); `uploadId`, `fileName`,
`parentId`, `mimeType` are the string body fields; `totalChunks` and
`size` keep their JavaScript value semantics; `fileId` and `now` stand for
`uuidv4()` and `Date.now()`. -/
def completeUpload (st : ServerState) (userId uploadId fileName parentId : String)
    (totalChunks size : JVal) (mimeType : String) (fileId : String) (now : Int) :
    CompleteResp × ServerState :=
  if userId = "" ∨ uploadId = "" ∨ fileName = "" ∨ totalChunks.falsy = true then
    (.badRequest, st)
  else
    match findUser st.users userId with
    | none => (.userNotFound, st)
    | some user =>
      let used := usedSpace st.files userId
      let fileSize := parseIntJ size
      let avail := user.storage_limit - used
      if fileSize > avail then
        (.quotaExceeded used user.storage_limit avail fileSize,
         { st with temp := removeSession st.temp uploadId })
      else
        let targetDir := getPhysicalPath st.files userId st.files.length (some parentId)
        let targetPath := pathJoin targetDir fileName
        let r := mergeLoop uploadId st.temp (parseIntJ totalChunks).toNat 0
        match r.2.2 with
        | some _ =>
          (.serverError, { st with temp := r.1, disk := diskSet st.disk targetPath r.2.1 })
        | none =>
          let entry : FileRec :=
            { id := fileId
              user_id := userId
              parent_id := if parentId = "root" then none else some parentId
              name := fileName
              ftype := "file"
              size := (r.2.1.length : Int)
              path := some targetPath
              mime_type := if mimeType = "" then "application/octet-stream" else mimeType
              created_at := now }
          (.ok entry,
           { st with temp := removeSession r.1 uploadId
                     disk := diskSet st.disk targetPath r.2.1
                     files := st.files ++ [entry] })

/-- Responses of `POST /api/check-quota`. -/
inductive CheckResp where
  | badRequest
  | userNotFound
  | ok (canUpload : Bool) (usedSpace totalSpace availableSpace requestedSize : Int)
deriving DecidableEq, Repr

/-- Model of the `POST /api/check-quota` handler. -/
def checkQuota (st : ServerState) (userId : String) (fileSize : JVal) : CheckResp :=
  if userId = "" ∨ fileSize.falsy = true then .badRequest
  else
    match findUser st.users userId with
    | none => .userNotFound
    | some user =>
      let used := usedSpace st.files userId
      let requested := parseIntJ fileSize
      let avail := user.storage_limit - used
      .ok (decide (requested ≤ avail)) used user.storage_limit avail requested

/-- Constant `CHUNK_SIZE = 10 * 1024 * 1024` (10 MB) in `FileSystemContext.tsx`. -/
def CHUNK_SIZE : Nat := 10 * 1024 * 1024

/-- Constant `MAX_CONCURRENT_UPLOADS = 5`. -/
def MAX_CONCURRENT_UPLOADS : Nat := 5

/-- Computation `totalChunks = Math.ceil(file.size / CHUNK_SIZE)`, with the chunk size a
parameter; ceiling division on naturals. -/
def totalChunksOf (fileSize S : Nat) : Nat := (fileSize + S - 1) / S

/-- Model of `file.slice(start, stop)` on a byte list. -/
def sliceFile (file : List Nat) (start stop : Nat) : List Nat :=
  (file.drop start).take (stop - start)

/-- Chunk `i` of the client splitter: bytes
`[i * S, min ((i + 1) * S, file.size))`. -/
def chunkOf (file : List Nat) (S i : Nat) : List Nat :=
  sliceFile file (i * S) (min ((i + 1) * S) file.length)

/-- Ordinals of the chunk-upload requests `processUploadChunk` issues when
every request succeeds: starting at `i`, each index below `totalChunks` is
posted and the continuation moves to `i + 1`; once `i ≥ totalChunks` the
completion branch is taken instead of any further chunk request. -/
def chunkIndicesFrom (totalChunks i : Nat) : List Nat :=
  if i ≥ totalChunks then [] else i :: chunkIndicesFrom totalChunks (i + 1)
termination_by totalChunks - i
decreasing_by omega

/-- Client transfer statuses (`TransferStatus`). -/
inductive TStatus where
  | pending
  | processing
  | merging
  | paused
  | completed
  | error
deriving DecidableEq, Repr

/-- Client transfer directions (`TransferType`). -/
inductive TDir where
  | upload
  | download
deriving DecidableEq, Repr

/-- Status the completion branch of `processUploadChunk` leaves the transfer
in, as a function of the server response: `response.ok` sets `completed`; a
413 sets `error`; every other failure throws, and the catch handler sets
`error`. -/
def completeOutcome : CompleteResp → TStatus
  | .ok _ => .completed
  | _ => .error

/-- Capped exponential backoff of the chunk retry path:
`Math.min(1000 * Math.pow(1.5, retryCount), 30000)` milliseconds, computed
over the rationals. -/
def retryDelay (retryCount : Nat) : ℚ :=
  min (1000 * (3 / 2 : ℚ) ^ retryCount) 30000

/-- Action of the catch branch of `processUploadChunk` on a failed chunk
attempt: below the bound, schedule the same chunk ordinal again after the
backoff delay with the retry counter incremented; at the bound, the
transfer is set to `error`. -/
inductive RetryAction where
  | retry (chunkIndex retryCount : Nat) (delay : ℚ)
  | giveUp
deriving DecidableEq, Repr

/-- The `catch` branch of `processUploadChunk`: `if (retryCount < 10)`
retry the same `chunkIndex` with `retryCount + 1` after `retryDelay
retryCount`, else mark the transfer `error`. -/
def onChunkFailure (chunkIndex retryCount : Nat) : RetryAction :=
  if retryCount < 10 then .retry chunkIndex (retryCount + 1) (retryDelay retryCount)
  else .giveUp

/-- Number of fetch attempts performed from retry counter `rc` on when every
attempt fails: one attempt now, plus the retried attempts while `rc < 10`.
The first invocation runs with `rc = 0`. -/
def attemptsWhenAllFail (rc : Nat) : Nat :=
  if rc < 10 then attemptsWhenAllFail (rc + 1) + 1 else 1
termination_by 10 - rc
decreasing_by omega

/-- The slice of a `TransferItem` the queue claims depend on. -/
structure QTransfer where
  id : String
  dir : TDir
  status : TStatus
deriving DecidableEq, Repr

/-- Whether a transfer occupies a queue slot: the queue-management effect
counts transfers whose status is `processing` or `merging`. -/
def isActive (t : QTransfer) : Bool :=
  t.status = TStatus.processing || t.status = TStatus.merging

/-- Count `transfers.filter(t => t.status === 'processing' || t.status === 'merging').length`. -/
def activeCount (ts : List QTransfer) : Nat := ts.countP isActive

/-- Ids present in the queue. -/
def qids (ts : List QTransfer) : List String := ts.map (fun t => t.id)

/-- Model of `updateTransfer`: map the update over the list, touching the entries
with the matching id. -/
def setStatus (ts : List QTransfer) (id : String) (s : TStatus) : List QTransfer :=
  ts.map (fun t => if t.id = id then { t with status := s } else t)

/-- Helper `statusOf` looks a transfer's status up by id. -/
def statusOf (ts : List QTransfer) (id : String) : Option TStatus :=
  (ts.find? (fun t => t.id = id)).map (fun t => t.status)

/-- Model of `clearCompletedTransfers`: keep a transfer unless its status is
`completed` and, when a direction filter is given, its direction matches. -/
def clearCompletedTransfers (ts : List QTransfer) (ty : Option TDir) : List QTransfer :=
  ts.filter (fun t =>
    if t.status ≠ TStatus.completed then true
    else
      match ty with
      | some d => t.dir ≠ d
      | none => false)

/-- The removal part of `cancelTransfer`: filter the id out of the list. -/
def removeTransfer (ts : List QTransfer) (id : String) : List QTransfer :=
  ts.filter (fun t => t.id ≠ id)

/-- Events of the client transfer queue.  Each constructor corresponds to a
state-mutating site in `FileSystemContext.tsx`: `single` is the direct
admission of `uploadFile`/`downloadFile` (status `processing`), `batch` the
admission of `uploadFiles` (status `pending`), `schedule` the
queue-management effect, `chunksDone` the final chunk boundary
(`processing → merging`), `mergeOk` a successful completion response,
`failed` an exhausted retry bound or failed merge, `cancel` and `clear` the
two explicit removal operations. -/
inductive QEvent where
  | single (t : QTransfer)
  | batch (l : List QTransfer)
  | schedule
  | chunksDone (id : String)
  | mergeOk (id : String)
  | failed (id : String)
  | cancel (id : String)
  | clear (ty : Option TDir)
deriving DecidableEq, Repr

/-- Whether an event is a direct (non-queue) admission. -/
def QEvent.isDirect : QEvent → Bool
  | .single _ => true
  | _ => false

/-- Whether an event is one of the two explicit removal operations. -/
def QEvent.isRemoval : QEvent → Bool
  | .cancel _ => true
  | .clear _ => true
  | _ => false

/-- One step of the client transfer queue.  Guards that fail leave the state
unchanged.  The random id generation of the source is modelled by ignoring
an admission whose id collides with a present one. -/
def qnext (ts : List QTransfer) : QEvent → List QTransfer
  | .single t =>
    if t.id ∈ qids ts then ts else ts ++ [{ t with status := TStatus.processing }]
  | .batch l =>
    if (qids ts ++ qids l).Nodup then ts ++ l.map (fun t => { t with status := TStatus.pending })
    else ts
  | .schedule =>
    if activeCount ts < MAX_CONCURRENT_UPLOADS then
      match ts.find? (fun t => t.status = TStatus.pending) with
      | some t => setStatus ts t.id TStatus.processing
      | none => ts
    else ts
  | .chunksDone id =>
    if statusOf ts id = some TStatus.processing then setStatus ts id TStatus.merging else ts
  | .mergeOk id =>
    if statusOf ts id = some TStatus.merging then setStatus ts id TStatus.completed else ts
  | .failed id =>
    if statusOf ts id = some TStatus.processing ∨ statusOf ts id = some TStatus.merging then
      setStatus ts id TStatus.error
    else ts
  | .cancel id => removeTransfer ts id
  | .clear ty => clearCompletedTransfers ts ty

/-- Queue state after a sequence of events, starting from the empty list. -/
def runQ (es : List QEvent) : List QTransfer := es.foldl qnext []

/-- A transfer as `cancelTransfer` sees it: its id and the optional
`abortController` field (an index into the controller table).  The upload
admissions never set the field; the download path does. -/
structure CTransfer where
  id : String
  abortController : Option Nat
deriving DecidableEq, Repr

/-- Client-side cancellation state: the transfer list, the aborted flags of
the created `AbortController`s, and the in-flight fetches, each paired with
the controller passed as its signal. -/
structure CState where
  transfers : List CTransfer
  controllers : List Bool
  inflight : List (String × Nat)
deriving DecidableEq, Repr

/-- Model of `controller.abort()`. -/
def abortCtrl (cs : List Bool) (i : Nat) : List Bool := cs.set i true

/-- Model of `cancelTransfer`: find the transfer, abort its stored
controller when one is present, then remove the id from the list. -/
def cancelTransfer (s : CState) (id : String) : CState :=
  let ctrls :=
    match s.transfers.find? (fun t => t.id = id) with
    | some t =>
      match t.abortController with
      | some c => abortCtrl s.controllers c
      | none => s.controllers
    | none => s.controllers
  { s with controllers := ctrls
           transfers := s.transfers.filter (fun t => t.id ≠ id) }

/-- Model of the start of a per-chunk fetch in `processUploadChunk`: a fresh
local `AbortController` is created and the fetch is bound to it; the
transfer record is not updated with the controller. -/
def startChunkFetch (s : CState) (id : String) : CState :=
  { s with controllers := s.controllers ++ [false]
           inflight := s.inflight ++ [(id, s.controllers.length)] }

/-- First action of every `processUploadChunk` invocation (the retry
continuations included): look the transfer up in `transfersRef`; when the
id is absent the invocation performs no state update, and when it is
present the update `upd` is applied to it. -/
def retryLookupStep (s : CState) (id : String) (upd : CTransfer → CTransfer) : CState :=
  match s.transfers.find? (fun t => t.id = id) with
  | none => s
  | some _ =>
    { s with transfers := s.transfers.map (fun t => if t.id = id then upd t else t) }

lemma chunkOf_eq_take (file : List Nat) (S i : Nat) :
    chunkOf file S i = (file.drop (i * S)).take S := by
  unfold chunkOf sliceFile
  rcases le_or_lt ((i + 1) * S) file.length with h | h
  · rw [min_eq_left h]
    congr 1
    have e : (i + 1) * S = i * S + S := by ring
    omega
  · rw [min_eq_right (le_of_lt h)]
    have hd : (file.drop (i * S)).length = file.length - i * S := List.length_drop _ _
    have e : (i + 1) * S = i * S + S := by ring
    rw [List.take_of_length_le (le_of_eq hd), List.take_of_length_le (by omega)]

lemma join_chunks_aux (file : List Nat) (S : Nat) :
    ∀ (k i : Nat),
      ((List.range' i k).map (fun j => (file.drop (j * S)).take S)).flatten
        = (file.drop (i * S)).take (k * S) := by
  intro k
  induction k with
  | zero => intro i; simp
  | succ n ih =>
    intro i
    rw [List.range'_succ]
    simp only [List.map_cons, List.flatten_cons, ih (i + 1)]
    have h1 : file.drop ((i + 1) * S) = (file.drop (i * S)).drop S := by
      rw [List.drop_drop]
      congr 1
      ring
    rw [h1, ← List.take_add]
    congr 1
    ring

/-- C3: for a file of `(C−1)·S + r` bytes with `C ≥ 1`, `0 < r ≤ S`, the
client splitter (`totalChunks = Math.ceil(size / S)`; chunk `i` =
`file.slice(i·S, min((i+1)·S, size))`) yields exactly `C` chunks whose
in-order concatenation is the original byte sequence. -/
theorem c3_splitter (file : List Nat) (C S r : Nat) (hr0 : 0 < r) (hrS : r ≤ S)
    (hC : 1 ≤ C) (hlen : file.length = (C - 1) * S + r) :
    totalChunksOf file.length S = C
    ∧ ((List.range C).map (fun i => chunkOf file S i)).flatten = file := by
  have hS : 0 < S := lt_of_lt_of_le hr0 hrS
  obtain ⟨n, rfl⟩ : ∃ n, C = n + 1 := ⟨C - 1, by omega⟩
  constructor
  · unfold totalChunksOf
    rw [hlen]
    have key : (n + 1 - 1) * S + r + S - 1 = S * (n + 1) + (r - 1) := by
      have e1 : n + 1 - 1 = n := by omega
      rw [e1, Nat.mul_comm n S, Nat.mul_succ]
      generalize S * n = a
      omega
    rw [key, Nat.mul_add_div hS, Nat.div_eq_of_lt (by omega)]
  · have hm : ((List.range (n + 1)).map (fun i => chunkOf file S i)).flatten
        = ((List.range' 0 (n + 1)).map (fun j => (file.drop (j * S)).take S)).flatten := by
      rw [List.range_eq_range']
      congr 1
      exact List.map_congr_left (fun i _ => chunkOf_eq_take file S i)
    rw [hm, join_chunks_aux file S (n + 1) 0]
    simp only [Nat.zero_mul, List.drop_zero]
    apply List.take_of_length_le
    rw [hlen]
    have e1 : n + 1 - 1 = n := by omega
    rw [e1, Nat.succ_mul]
    generalize n * S = a
    omega

/-- C3 witness: a 5-byte file with chunk size 2 splits into 3 chunks that
reassemble exactly. -/
theorem c3_witness :
    totalChunksOf ([0, 1, 2, 3, 4] : List Nat).length 2 = 3
    ∧ ((List.range 3).map (fun i => chunkOf [0, 1, 2, 3, 4] 2 i)).flatten
        = [0, 1, 2, 3, 4] :=
  c3_splitter [0, 1, 2, 3, 4] 3 2 1 (by decide) (by decide) (by decide) (by decide)

/-- C1: a commit attempt whose declared final size exceeds the owner's
remaining capacity is answered with the distinguished 413 response carrying
the used/total/available/size figures, the session's entire temporary chunk
store is deleted, and the catalog and destination disk are untouched. -/
theorem c1_quota_reject (st : ServerState) (userId uploadId fileName parentId : String)
    (totalChunks size : JVal) (mimeType fileId : String) (now : Int) (u : UserRec)
    (hu : ¬ userId = "") (hup : ¬ uploadId = "") (hf : ¬ fileName = "")
    (htc : totalChunks.falsy = false)
    (huser : findUser st.users userId = some u)
    (hq : parseIntJ size > u.storage_limit - usedSpace st.files userId) :
    completeUpload st userId uploadId fileName parentId totalChunks size mimeType fileId now
      = (CompleteResp.quotaExceeded (usedSpace st.files userId) u.storage_limit
           (u.storage_limit - usedSpace st.files userId) (parseIntJ size),
         { st with temp := removeSession st.temp uploadId }) := by
  simp [completeUpload, hu, hup, hf, htc, huser, hq]

def c1St : ServerState :=
  { users := [⟨"u1", 1000000⟩]
    files := [⟨"f0", "u1", none, "old.bin", "file", 900000, some "uploads/u1/old.bin",
               "application/octet-stream", 0⟩]
    temp := [⟨"up1", 0, [1, 2, 3]⟩, ⟨"other", 0, [9]⟩]
    disk := [] }

/-- C1 witness: owner with limit 1,000,000 and consumption 900,000; a commit
declaring 200,000 bytes is rejected with the exact figures, the session's
chunks are deleted, and catalog and disk are unchanged. -/
theorem c1_witness :
    completeUpload c1St "u1" "up1" "f.bin" "root" (JVal.num 1) (JVal.num 200000) "" "fid1" 7
      = (CompleteResp.quotaExceeded 900000 1000000 100000 200000,
         { users := c1St.users, files := c1St.files, temp := [⟨"other", 0, [9]⟩],
           disk := [] }) := by
  have h := c1_quota_reject c1St "u1" "up1" "f.bin" "root" (JVal.num 1) (JVal.num 200000)
    "" "fid1" 7 ⟨"u1", 1000000⟩ (by decide) (by decide) (by decide) (by rfl) (by rfl)
    (by decide)
  exact h

/-- C7 (amended): for every request whose size field is truthy, the advisory
pre-flight check and the commit-time check compute consumption by the same
rule (`usedSpace`) and admit exactly the same sizes (admit iff
requested ≤ limit − consumption); for a falsy size field the pre-flight
answers 400 while the commit-time check proceeds (see the counterexample). -/
theorem c7_quota_checks_agree (st : ServerState)
    (userId uploadId fileName parentId mimeType fileId : String)
    (totalChunks v : JVal) (now : Int) (u : UserRec)
    (hv : v.falsy = false) (hu : ¬ userId = "") (hup : ¬ uploadId = "")
    (hf : ¬ fileName = "") (htc : totalChunks.falsy = false)
    (huser : findUser st.users userId = some u) :
    checkQuota st userId v
      = CheckResp.ok (decide (parseIntJ v ≤ u.storage_limit - usedSpace st.files userId))
          (usedSpace st.files userId) u.storage_limit
          (u.storage_limit - usedSpace st.files userId) (parseIntJ v)
    ∧ ((completeUpload st userId uploadId fileName parentId totalChunks v
          mimeType fileId now).1.isQuotaRejected
        = !(decide (parseIntJ v ≤ u.storage_limit - usedSpace st.files userId))) := by
  constructor
  · simp [checkQuota, hu, hv, huser]
  · by_cases hq : parseIntJ v > u.storage_limit - usedSpace st.files userId
    · have hd : decide (parseIntJ v ≤ u.storage_limit - usedSpace st.files userId) = false := by
        simp
        omega
      simp [completeUpload, hu, hup, hf, htc, huser, hq, hd, CompleteResp.isQuotaRejected]
    · have hd : decide (parseIntJ v ≤ u.storage_limit - usedSpace st.files userId) = true := by
        simp
        omega
      rcases hr : (mergeLoop uploadId st.temp (parseIntJ totalChunks).toNat 0).2.2 with _ | i
      · simp [completeUpload, hu, hup, hf, htc, huser, hq, hd, hr,
          CompleteResp.isQuotaRejected]
      · simp [completeUpload, hu, hup, hf, htc, huser, hq, hd, hr,
          CompleteResp.isQuotaRejected]

def c7St : ServerState :=
  { users := [⟨"u1", 100⟩], files := [], temp := [⟨"up1", 0, [7]⟩], disk := [] }

/-- C7 counterexample: for the requested byte count 0 (limit 100, consumption
0, so 0 ≤ limit − consumption), the commit-time check admits and the upload
completes, while the pre-flight check does not admit: it answers 400 because
the falsy `fileSize` field fails its required-field test.  The two checks do
not admit exactly the same requested sizes. -/
theorem c7_counterexample :
    checkQuota c7St "u1" (JVal.num 0) = CheckResp.badRequest
    ∧ (completeUpload c7St "u1" "up1" "f.bin" "root" (JVal.num 1) (JVal.num 0)
         "" "fid1" 5).1
        = CompleteResp.ok ⟨"fid1", "u1", none, "f.bin", "file", 1, some "uploads/u1/f.bin",
            "application/octet-stream", 5⟩ := by
  exact ⟨rfl, rfl⟩

/-- C10 (amended): a completion request that omits the declared size or
supplies a non-numeric value (anything parsing to 0) is not rejected as a
client error — size is absent from the required-field check — and the quota
comparison, parsing it as 0 bytes, passes exactly when the owner's
consumption does not already exceed the limit; an owner already over the
limit is still rejected with 413. -/
theorem c10_falsy_size (st : ServerState)
    (userId uploadId fileName parentId mimeType fileId : String)
    (totalChunks v : JVal) (now : Int) (u : UserRec)
    (hu : ¬ userId = "") (hup : ¬ uploadId = "") (hf : ¬ fileName = "")
    (htc : totalChunks.falsy = false)
    (huser : findUser st.users userId = some u)
    (hv : parseIntJ v = 0) :
    (completeUpload st userId uploadId fileName parentId totalChunks v
        mimeType fileId now).1 ≠ CompleteResp.badRequest
    ∧ ((completeUpload st userId uploadId fileName parentId totalChunks v
          mimeType fileId now).1.isQuotaRejected = true
        ↔ u.storage_limit < usedSpace st.files userId) := by
  by_cases hq : (0 : Int) > u.storage_limit - usedSpace st.files userId
  · constructor
    · simp [completeUpload, hu, hup, hf, htc, huser, hv, hq]
    · constructor
      · intro _
        omega
      · intro _
        simp [completeUpload, hu, hup, hf, htc, huser, hv, hq,
          CompleteResp.isQuotaRejected]
  · rcases hr : (mergeLoop uploadId st.temp (parseIntJ totalChunks).toNat 0).2.2 with _ | i
    · constructor
      · simp [completeUpload, hu, hup, hf, htc, huser, hv, hq, hr]
      · constructor
        · intro hcontr
          rw [show (completeUpload st userId uploadId fileName parentId totalChunks v
              mimeType fileId now).1.isQuotaRejected = false by
            simp [completeUpload, hu, hup, hf, htc, huser, hv, hq, hr,
              CompleteResp.isQuotaRejected]] at hcontr
          exact absurd hcontr (by simp)
        · intro hlt
          omega
    · constructor
      · simp [completeUpload, hu, hup, hf, htc, huser, hv, hq, hr]
      · constructor
        · intro hcontr
          rw [show (completeUpload st userId uploadId fileName parentId totalChunks v
              mimeType fileId now).1.isQuotaRejected = false by
            simp [completeUpload, hu, hup, hf, htc, huser, hv, hq, hr,
              CompleteResp.isQuotaRejected]] at hcontr
          exact absurd hcontr (by simp)
        · intro hlt
          omega

def c10St : ServerState :=
  { users := [⟨"u1", 100⟩]
    files := [⟨"f0", "u1", none, "big.bin", "file", 150, some "uploads/u1/big.bin",
               "application/octet-stream", 0⟩]
    temp := [⟨"up1", 0, [1]⟩]
    disk := [] }

/-- C10 counterexample: a completion request omitting the size field, made by
an owner whose consumption (150) already exceeds the limit (100), is rejected
with 413 — the quota check does not pass for every such request regardless of
remaining capacity. -/
theorem c10_counterexample :
    completeUpload c10St "u1" "up1" "f.bin" "root" (JVal.num 1) JVal.undef "" "fid1" 5
      = (CompleteResp.quotaExceeded 150 100 (-50) 0,
         { users := c10St.users, files := c10St.files, temp := [], disk := [] }) := by
  rfl

/-- C10 witness: instance of the amended theorem at a concrete state (limit
100, consumption 0, size omitted): the request is not a 400 and the quota
check passes. -/
theorem c10_witness :
    (completeUpload ⟨[⟨"u1", 100⟩], [], [⟨"up1", 0, [1]⟩], []⟩ "u1" "up1" "f.bin" "root"
        (JVal.num 1) JVal.undef "" "fid1" 5).1 ≠ CompleteResp.badRequest
    ∧ ((completeUpload ⟨[⟨"u1", 100⟩], [], [⟨"up1", 0, [1]⟩], []⟩ "u1" "up1" "f.bin" "root"
          (JVal.num 1) JVal.undef "" "fid1" 5).1.isQuotaRejected = true
        ↔ (100 : Int) < 0) := by
  have h := c10_falsy_size ⟨[⟨"u1", 100⟩], [], [⟨"up1", 0, [1]⟩], []⟩ "u1" "up1" "f.bin"
    "root" "" "fid1" (JVal.num 1) JVal.undef 5 ⟨"u1", 100⟩ (by decide) (by decide)
    (by decide) (by rfl) (by rfl) (by rfl)
  exact h

/-- C7 witness: instance of the amended theorem at a concrete state (limit
100, consumption 0, truthy requested size 60): both checks admit 60 with the
same figures. -/
theorem c7_witness :
    checkQuota ⟨[⟨"u1", 100⟩], [], [⟨"up1", 0, [7]⟩], []⟩ "u1" (JVal.num 60)
      = CheckResp.ok true 0 100 100 60
    ∧ ((completeUpload ⟨[⟨"u1", 100⟩], [], [⟨"up1", 0, [7]⟩], []⟩ "u1" "up1" "f.bin" "root"
          (JVal.num 1) (JVal.num 60) "" "fid1" 5).1.isQuotaRejected = !true) := by
  have h := c7_quota_checks_agree ⟨[⟨"u1", 100⟩], [], [⟨"up1", 0, [7]⟩], []⟩ "u1" "up1"
    "f.bin" "root" "" "fid1" (JVal.num 1) (JVal.num 60) 5 ⟨"u1", 100⟩ (by rfl) (by decide)
    (by decide) (by decide) (by rfl) (by rfl)
  exact h

lemma find?_filter_keep {α : Type} (p q : α → Bool) (h : ∀ a, p a = true → q a = true) :
    ∀ l : List α, (l.filter q).find? p = l.find? p := by
  intro l
  induction l with
  | nil => rfl
  | cons a l ih =>
    by_cases hq : q a = true
    · rw [List.filter_cons_of_pos hq]
      by_cases hp : p a = true
      · rw [List.find?_cons_of_pos _ hp, List.find?_cons_of_pos _ hp]
      · rw [List.find?_cons_of_neg _ (by simp [hp]), List.find?_cons_of_neg _ (by simp [hp]),
          ih]
    · rw [List.filter_cons_of_neg (by simp [hq]), ih,
        List.find?_cons_of_neg _ (fun hp => hq (h a hp))]

lemma getChunk_removeChunk_ne (temp : List ChunkRec) (uid : String) (i j : Nat)
    (hij : j ≠ i) :
    getChunk (removeChunk temp uid i) uid j = getChunk temp uid j := by
  unfold getChunk removeChunk
  rw [find?_filter_keep _ _ ?h temp]
  case h =>
    intro c hp
    simp only [Bool.and_eq_true, decide_eq_true_eq] at hp
    obtain ⟨h1, h2⟩ := hp
    simp only [Bool.not_eq_true']
    simp [h1, h2]
    omega

lemma mergeLoop_fail (uid : String) (m : Nat) :
    ∀ (fuel i : Nat) (temp : List ChunkRec), m < fuel →
      (∀ j, j < m → getChunk temp uid (i + j) ≠ none) →
      getChunk temp uid (i + m) = none →
      (mergeLoop uid temp fuel i).2.2 = some (i + m)
      ∧ (mergeLoop uid temp fuel i).2.1
          = ((List.range m).map (fun j => (getChunk temp uid (i + j)).getD [])).flatten := by
  induction m with
  | zero =>
    intro fuel i temp hf _ hmiss
    obtain ⟨f, rfl⟩ : ∃ f, fuel = f + 1 := ⟨fuel - 1, by omega⟩
    rw [show i + 0 = i from rfl] at hmiss
    simp only [mergeLoop, hmiss]
    simp
  | succ n ih =>
    intro fuel i temp hf hpres hmiss
    obtain ⟨f, rfl⟩ : ∃ f, fuel = f + 1 := ⟨fuel - 1, by omega⟩
    have h0 : getChunk temp uid i ≠ none := by
      have := hpres 0 (by omega)
      simpa using this
    rcases hc : getChunk temp uid i with _ | bs
    · exact absurd hc h0
    have hpres' : ∀ j, j < n → getChunk (removeChunk temp uid i) uid (i + 1 + j) ≠ none := by
      intro j hj
      rw [getChunk_removeChunk_ne _ uid i (i + 1 + j) (by omega)]
      have hx := hpres (j + 1) (by omega)
      rw [show i + (j + 1) = i + 1 + j by omega] at hx
      exact hx
    have hmiss' : getChunk (removeChunk temp uid i) uid (i + 1 + n) = none := by
      rw [getChunk_removeChunk_ne _ uid i _ (by omega),
        show i + 1 + n = i + (n + 1) by omega]
      exact hmiss
    have hih := ih f (i + 1) (removeChunk temp uid i) (by omega) hpres' hmiss'
    simp only [mergeLoop, hc]
    constructor
    · rw [hih.1, show i + 1 + n = i + (n + 1) by omega]
    · rw [hih.2, List.range_succ_eq_map]
      simp only [List.map_cons, List.flatten_cons, List.map_map]
      rw [show i + 0 = i from rfl, hc]
      simp only [Option.getD_some]
      congr 1
      apply congrArg
      apply List.map_congr_left
      intro j _
      simp only [Function.comp_apply]
      rw [getChunk_removeChunk_ne _ uid i (i + 1 + j) (by omega),
        show i + 1 + j = i + (j + 1) by omega]

lemma diskGet_diskSet (disk : List (String × List Nat)) (p : String) (bs : List Nat) :
    diskGet (diskSet disk p bs) p = some bs := by
  simp [diskGet, diskSet]

/-- C2 (amended): when ordinal `i` is the first missing chunk of a session at
commit time (all smaller ordinals present, `i < totalChunks`), assembly
aborts with a 500 server error and no catalog entry is registered — but the
destination file is left on disk holding exactly the concatenated bytes of
the chunks preceding `i` (a truncated, unregistered artifact persists). -/
theorem c2_missing_chunk (st : ServerState) (userId uploadId fileName parentId : String)
    (totalChunks size : JVal) (mimeType fileId : String) (now : Int) (u : UserRec) (i : Nat)
    (hu : ¬ userId = "") (hup : ¬ uploadId = "") (hf : ¬ fileName = "")
    (htc : totalChunks.falsy = false)
    (huser : findUser st.users userId = some u)
    (hq : ¬ parseIntJ size > u.storage_limit - usedSpace st.files userId)
    (hi : i < (parseIntJ totalChunks).toNat)
    (hpres : ∀ j, j < i → getChunk st.temp uploadId j ≠ none)
    (hmiss : getChunk st.temp uploadId i = none) :
    (completeUpload st userId uploadId fileName parentId totalChunks size
        mimeType fileId now).1 = CompleteResp.serverError
    ∧ (completeUpload st userId uploadId fileName parentId totalChunks size
        mimeType fileId now).2.files = st.files
    ∧ diskGet (completeUpload st userId uploadId fileName parentId totalChunks size
          mimeType fileId now).2.disk
        (pathJoin (getPhysicalPath st.files userId st.files.length (some parentId)) fileName)
        = some (((List.range i).map
            (fun j => (getChunk st.temp uploadId j).getD [])).flatten) := by
  have hml := mergeLoop_fail uploadId i ((parseIntJ totalChunks).toNat) 0 st.temp hi
    (by intro j hj; simpa using hpres j hj) (by simpa using hmiss)
  simp only [Nat.zero_add] at hml
  refine ⟨?_, ?_, ?_⟩
  · simp [completeUpload, hu, hup, hf, htc, huser, hq, hml.1]
  · simp [completeUpload, hu, hup, hf, htc, huser, hq, hml.1]
  · simp [completeUpload, hu, hup, hf, htc, huser, hq, hml.1, hml.2, diskGet_diskSet]

def c2St : ServerState :=
  { users := [⟨"u1", 1000000⟩]
    files := []
    temp := [⟨"up1", 0, [1]⟩, ⟨"up1", 1, [2]⟩, ⟨"up1", 3, [4]⟩, ⟨"up1", 4, [5]⟩]
    disk := [] }

/-- C2 counterexample: chunk ordinal 2 of 5 is absent at completion; assembly
aborts with a server error and registers nothing, but the destination file
is left on disk holding the bytes of chunks 0 and 1 — a truncated artifact
is produced, contrary to the claim. -/
theorem c2_counterexample :
    (completeUpload c2St "u1" "up1" "f.bin" "root" (JVal.num 5) (JVal.num 5)
        "" "fid1" 9).1 = CompleteResp.serverError
    ∧ (completeUpload c2St "u1" "up1" "f.bin" "root" (JVal.num 5) (JVal.num 5)
        "" "fid1" 9).2.files = []
    ∧ diskGet (completeUpload c2St "u1" "up1" "f.bin" "root" (JVal.num 5) (JVal.num 5)
        "" "fid1" 9).2.disk "uploads/u1/f.bin" = some [1, 2] :=
  ⟨rfl, rfl, rfl⟩

/-- C2 witness: instance of the amended theorem at the concrete session whose
chunk 2 of 5 is missing. -/
theorem c2_witness :
    (completeUpload c2St "u1" "up1" "f.bin" "root" (JVal.num 5) (JVal.num 5)
        "" "fid1" 9).1 = CompleteResp.serverError
    ∧ (completeUpload c2St "u1" "up1" "f.bin" "root" (JVal.num 5) (JVal.num 5)
        "" "fid1" 9).2.files = c2St.files
    ∧ diskGet (completeUpload c2St "u1" "up1" "f.bin" "root" (JVal.num 5) (JVal.num 5)
          "" "fid1" 9).2.disk
        (pathJoin (getPhysicalPath c2St.files "u1" c2St.files.length (some "root")) "f.bin")
        = some (((List.range 2).map
            (fun j => (getChunk c2St.temp "up1" j).getD [])).flatten) :=
  c2_missing_chunk c2St "u1" "up1" "f.bin" "root" (JVal.num 5) (JVal.num 5) "" "fid1" 9
    ⟨"u1", 1000000⟩ 2 (by decide) (by decide) (by decide) (by rfl) (by rfl) (by decide)
    (by decide) (by decide) (by rfl)

lemma attemptsWhenAllFail_eq : ∀ n rc, rc + n = 10 → attemptsWhenAllFail rc = n + 1 := by
  intro n
  induction n with
  | zero =>
    intro rc h
    rw [attemptsWhenAllFail, if_neg (by omega)]
  | succ k ih =>
    intro rc h
    rw [attemptsWhenAllFail, if_pos (by omega), ih (rc + 1) (by omega)]

/-- C5 (amended): a chunk failing every attempt is retried at the same chunk
ordinal with delay `min(1000·1.5^retryCount, 30000)` ms while the retry
counter is below 10, and the transfer transitions to `error` after exactly
11 fetch attempts (the initial attempt plus 10 retries), not 10; the error
update touches only the failing transfer and leaves every sibling transfer
unchanged. -/
theorem c5_retry_policy (ci rc : Nat) (h : rc < 10) :
    onChunkFailure ci rc
      = RetryAction.retry ci (rc + 1) (min (1000 * (3 / 2 : ℚ) ^ rc) 30000)
    ∧ onChunkFailure ci 10 = RetryAction.giveUp
    ∧ attemptsWhenAllFail 0 = 11
    ∧ (∀ (ts : List QTransfer) (id : String) (t : QTransfer),
        t ∈ ts → ¬ t.id = id → t ∈ setStatus ts id TStatus.error) := by
  refine ⟨?_, ?_, ?_, ?_⟩
  · simp [onChunkFailure, h, retryDelay]
  · simp [onChunkFailure]
  · exact attemptsWhenAllFail_eq 10 0 (by omega)
  · intro ts id t hmem hne
    have he : (fun t' : QTransfer =>
        if t'.id = id then { t' with status := TStatus.error } else t') t = t := by
      simp [hne]
    exact he ▸ List.mem_map_of_mem _ hmem

/-- C5 counterexample: the transfer does not reach `error` after 10 attempts:
the failure of the 10th attempt (retry counter 9) schedules yet another
retry, and only the 11th failure gives up. -/
theorem c5_counterexample :
    attemptsWhenAllFail 0 ≠ 10 ∧ onChunkFailure 3 9 ≠ RetryAction.giveUp := by
  constructor
  · rw [attemptsWhenAllFail_eq 10 0 (by omega)]
    omega
  · simp [onChunkFailure]

/-- C5 witness: the retry action at retry counter 9 and the total attempt
count, obtained from the amended theorem. -/
theorem c5_witness :
    onChunkFailure 3 9 = RetryAction.retry 3 10 (min (1000 * (3 / 2 : ℚ) ^ 9) 30000)
    ∧ attemptsWhenAllFail 0 = 11 := by
  have h := c5_retry_policy 3 9 (by decide)
  exact ⟨h.1, h.2.2.1⟩

/-- C9: an enqueued zero-byte file yields `totalChunks = 0`, so no chunk
request is ever issued and the completion signal is sent at once with
`totalChunks` 0; the server's required-field check treats the falsy value
as missing and answers 400 for every server state (the state is unchanged),
and the client maps that non-ok, non-413 response to the `error` status —
a zero-byte file can never complete through the chunked-upload path. -/
theorem c9_zero_byte (st : ServerState) (userId uploadId fileName parentId : String)
    (mimeType fileId : String) (now : Int) :
    totalChunksOf 0 CHUNK_SIZE = 0
    ∧ chunkIndicesFrom (totalChunksOf 0 CHUNK_SIZE) 0 = []
    ∧ completeUpload st userId uploadId fileName parentId (JVal.num 0) (JVal.num 0)
        mimeType fileId now = (CompleteResp.badRequest, st)
    ∧ completeOutcome CompleteResp.badRequest = TStatus.error := by
  refine ⟨?_, ?_, ?_, ?_⟩
  · rfl
  · rw [show totalChunksOf 0 CHUNK_SIZE = 0 from rfl, chunkIndicesFrom]
    simp
  · simp [completeUpload, JVal.falsy]
  · rfl

lemma find?_filter_self (ts : List CTransfer) (id : String) :
    (ts.filter (fun t => t.id ≠ id)).find? (fun t => t.id = id) = none := by
  induction ts with
  | nil => rfl
  | cons a ts ih =>
    by_cases h : a.id = id
    · rw [List.filter_cons_of_neg (by simp [h])]
      exact ih
    · rw [List.filter_cons_of_pos (by simp [h]), List.find?_cons_of_neg _ (by simp [h])]
      exact ih

/-- C6 (amended): `cancelTransfer` always removes the transfer from the
active set, and aborts an in-flight call only when a controller is stored on
the transfer record (the download path); upload transfers never carry one —
their per-chunk controller is local to `processUploadChunk` — so an upload's
in-flight chunk request is not aborted (see the counterexample).  A
cancelled transfer is never advanced or resurrected by the retry path: every
later `processUploadChunk` invocation for its id finds no transfer and
leaves the state unchanged. -/
theorem c6_cancel (s : CState) (id : String) (upd : CTransfer → CTransfer)
    (t : CTransfer) (hfind : s.transfers.find? (fun t => t.id = id) = some t) :
    (cancelTransfer s id).transfers = s.transfers.filter (fun t => t.id ≠ id)
    ∧ (∀ c, t.abortController = some c →
        (cancelTransfer s id).controllers = abortCtrl s.controllers c)
    ∧ (t.abortController = none → (cancelTransfer s id).controllers = s.controllers)
    ∧ retryLookupStep (cancelTransfer s id) id upd = cancelTransfer s id := by
  refine ⟨rfl, ?_, ?_, ?_⟩
  · intro c hc
    simp only [cancelTransfer, hfind, hc]
  · intro hc
    simp only [cancelTransfer, hfind, hc]
  · have htr : (cancelTransfer s id).transfers = s.transfers.filter (fun t => t.id ≠ id) := rfl
    rw [retryLookupStep, htr, find?_filter_self]

def c6S : CState := { transfers := [⟨"t1", none⟩], controllers := [], inflight := [] }

/-- C6 counterexample: an upload transfer with an in-flight chunk request
(bound to controller 0, created locally by `processUploadChunk` and never
stored on the transfer record): `cancelTransfer` removes the transfer, but
the in-flight request's controller remains un-aborted (`false`). -/
theorem c6_counterexample :
    (startChunkFetch c6S "t1").inflight = [("t1", 0)]
    ∧ (cancelTransfer (startChunkFetch c6S "t1") "t1").transfers = []
    ∧ (cancelTransfer (startChunkFetch c6S "t1") "t1").controllers = [false] :=
  ⟨rfl, rfl, rfl⟩

/-- C6 witness: the amended theorem at the concrete one-upload state. -/
theorem c6_witness :
    (cancelTransfer (startChunkFetch c6S "t1") "t1").transfers
        = (startChunkFetch c6S "t1").transfers.filter (fun t => t.id ≠ "t1")
    ∧ (∀ c, (⟨"t1", none⟩ : CTransfer).abortController = some c →
        (cancelTransfer (startChunkFetch c6S "t1") "t1").controllers
          = abortCtrl (startChunkFetch c6S "t1").controllers c)
    ∧ ((⟨"t1", none⟩ : CTransfer).abortController = none →
        (cancelTransfer (startChunkFetch c6S "t1") "t1").controllers
          = (startChunkFetch c6S "t1").controllers)
    ∧ retryLookupStep (cancelTransfer (startChunkFetch c6S "t1") "t1") "t1" (fun t => t)
        = cancelTransfer (startChunkFetch c6S "t1") "t1" :=
  c6_cancel (startChunkFetch c6S "t1") "t1" (fun t => t) ⟨"t1", none⟩ (by rfl)

lemma qids_setStatus (ts : List QTransfer) (id : String) (s : TStatus) :
    qids (setStatus ts id s) = qids ts := by
  unfold qids setStatus
  rw [List.map_map]
  apply List.map_congr_left
  intro t _
  by_cases h : t.id = id <;> simp [h]

lemma qids_append (a b : List QTransfer) : qids (a ++ b) = qids a ++ qids b := by
  simp [qids]

lemma setStatus_cons (a : QTransfer) (ts : List QTransfer) (id : String) (s : TStatus) :
    setStatus (a :: ts) id s
      = (if a.id = id then { a with status := s } else a) :: setStatus ts id s := rfl

lemma activeCount_cons (a : QTransfer) (ts : List QTransfer) :
    activeCount (a :: ts) = activeCount ts + if isActive a then 1 else 0 := by
  simp [activeCount, List.countP_cons]

lemma activeCount_append (a b : List QTransfer) :
    activeCount (a ++ b) = activeCount a + activeCount b := by
  simp [activeCount, List.countP_append]

lemma setStatus_of_not_mem (ts : List QTransfer) (id : String) (s : TStatus)
    (h : id ∉ qids ts) : setStatus ts id s = ts := by
  unfold setStatus
  have he : ∀ t ∈ ts, (if t.id = id then { t with status := s } else t) = t := by
    intro t ht
    rw [if_neg]
    intro hid
    exact h (hid ▸ List.mem_map_of_mem (fun t => t.id) ht)
  calc ts.map _ = ts.map (fun t => t) := List.map_congr_left he
    _ = ts := List.map_id' ts

lemma activeCount_setStatus_le (ts : List QTransfer) (id : String) (s : TStatus)
    (h : (qids ts).Nodup) :
    activeCount (setStatus ts id s) ≤ activeCount ts + 1 := by
  induction ts with
  | nil => simp [setStatus, activeCount]
  | cons a ts ih =>
    have hcons : qids (a :: ts) = a.id :: qids ts := rfl
    rw [hcons] at h
    obtain ⟨h1, h2⟩ := List.nodup_cons.mp h
    rw [setStatus_cons, activeCount_cons]
    by_cases ha : a.id = id
    · rw [if_pos ha, setStatus_of_not_mem ts id s (ha ▸ h1), activeCount_cons]
      split_ifs <;> omega
    · rw [if_neg ha, activeCount_cons]
      have := ih h2
      split_ifs <;> omega

lemma activeCount_setStatus_inactive (ts : List QTransfer) (id : String) (s : TStatus)
    (hs : (s = TStatus.processing ∨ s = TStatus.merging) → False) :
    activeCount (setStatus ts id s) ≤ activeCount ts := by
  unfold activeCount setStatus
  rw [List.countP_map]
  apply List.countP_mono_left
  intro t _ hp
  simp only [Function.comp_apply] at hp
  by_cases ha : t.id = id
  · rw [if_pos ha] at hp
    exfalso
    apply hs
    simpa [isActive] using hp
  · rwa [if_neg ha] at hp

lemma activeCount_setStatus_active (ts : List QTransfer) (id : String) (s : TStatus)
    (h : (qids ts).Nodup) (hs : isActive { id := id, dir := TDir.upload, status := s } = true)
    (hst : ∀ t ∈ ts, t.id = id → isActive t = true) :
    activeCount (setStatus ts id s) = activeCount ts := by
  induction ts with
  | nil => rfl
  | cons a ts ih =>
    have hcons : qids (a :: ts) = a.id :: qids ts := rfl
    rw [hcons] at h
    obtain ⟨h1, h2⟩ := List.nodup_cons.mp h
    rw [setStatus_cons, activeCount_cons, activeCount_cons]
    by_cases ha : a.id = id
    · rw [if_pos ha, setStatus_of_not_mem ts id s (ha ▸ h1)]
      have hact : isActive a = true := hst a (List.mem_cons_self a ts) ha
      have hact' : isActive { a with status := s } = true := by
        simpa [isActive] using hs
      rw [hact, hact']
    · rw [if_neg ha, ih h2 (fun t ht hti => hst t (List.mem_cons_of_mem a ht) hti)]

lemma statusOf_cons (a : QTransfer) (ts : List QTransfer) (id : String) :
    statusOf (a :: ts) id = if a.id = id then some a.status else statusOf ts id := by
  unfold statusOf
  by_cases h : a.id = id
  · rw [List.find?_cons_of_pos _ (by simpa using h), if_pos h]
    rfl
  · rw [List.find?_cons_of_neg _ (by simpa using h), if_neg h]

lemma statusOf_active (ts : List QTransfer) (id : String) (s0 : TStatus)
    (hnd : (qids ts).Nodup)
    (hst : statusOf ts id = some s0)
    (hs0 : s0 = TStatus.processing ∨ s0 = TStatus.merging) :
    ∀ t ∈ ts, t.id = id → isActive t = true := by
  induction ts with
  | nil => intro t ht; cases ht
  | cons a ts ih =>
    have hcons : qids (a :: ts) = a.id :: qids ts := rfl
    rw [hcons] at hnd
    obtain ⟨h1, h2⟩ := List.nodup_cons.mp hnd
    intro t ht hti
    rw [statusOf_cons] at hst
    rcases List.mem_cons.mp ht with rfl | hmem
    · rw [if_pos hti] at hst
      have heq : t.status = s0 := by injection hst
      rcases hs0 with h | h <;> simp [isActive, heq, h]
    · by_cases ha : a.id = id
      · exfalso
        apply h1
        rw [ha, ← hti]
        exact List.mem_map_of_mem (fun t => t.id) hmem
      · rw [if_neg ha] at hst
        exact ih h2 hst t hmem hti

/-- Invariant of the batch-admission queue: ids are distinct and the number
of `processing`/`merging` transfers is at most the concurrency limit. -/
def QInv (ts : List QTransfer) : Prop :=
  (qids ts).Nodup ∧ activeCount ts ≤ MAX_CONCURRENT_UPLOADS

lemma qinv_filter (ts : List QTransfer) (p : QTransfer → Bool) (h : QInv ts) :
    QInv (ts.filter p) := by
  obtain ⟨h1, h2⟩ := h
  have hsub : List.Sublist (ts.filter p) ts := List.filter_sublist ts
  constructor
  · have hmap := List.Sublist.map (fun t : QTransfer => t.id) hsub
    exact List.Nodup.sublist (by simpa [qids] using hmap) h1
  · calc activeCount (ts.filter p) ≤ activeCount ts := hsub.countP_le isActive
      _ ≤ _ := h2

lemma qnext_preserves (ts : List QTransfer) (e : QEvent) (hinv : QInv ts)
    (hnd : e.isDirect = false) : QInv (qnext ts e) := by
  obtain ⟨hNodup, hle⟩ := hinv
  cases e with
  | single t => simp [QEvent.isDirect] at hnd
  | batch l =>
    simp only [qnext]
    split_ifs with hg
    · constructor
      · have hq : qids (ts ++ l.map fun t => { t with status := TStatus.pending })
            = qids ts ++ qids l := by
          rw [qids_append]
          congr 1
          unfold qids
          rw [List.map_map]
          exact List.map_congr_left (fun t _ => rfl)
        rw [hq]
        exact hg
      · rw [activeCount_append]
        have hz : activeCount (l.map fun t => { t with status := TStatus.pending }) = 0 := by
          unfold activeCount
          rw [List.countP_map]
          apply List.countP_eq_zero.mpr
          intro t _
          simp [Function.comp, isActive]
        omega
    · exact ⟨hNodup, hle⟩
  | schedule =>
    simp only [qnext]
    split_ifs with hg
    · rcases hfind : ts.find? (fun t => t.status = TStatus.pending) with _ | t
      · simp only [hfind]
        exact ⟨hNodup, hle⟩
      · simp only [hfind]
        refine ⟨?_, ?_⟩
        · rw [qids_setStatus]
          exact hNodup
        · have := activeCount_setStatus_le ts t.id TStatus.processing hNodup
          omega
    · exact ⟨hNodup, hle⟩
  | chunksDone id =>
    simp only [qnext]
    split_ifs with hg
    · refine ⟨?_, ?_⟩
      · rw [qids_setStatus]
        exact hNodup
      · rw [activeCount_setStatus_active ts id TStatus.merging hNodup (by simp [isActive])
          (statusOf_active ts id TStatus.processing hNodup hg (Or.inl rfl))]
        exact hle
    · exact ⟨hNodup, hle⟩
  | mergeOk id =>
    simp only [qnext]
    split_ifs with hg
    · refine ⟨?_, ?_⟩
      · rw [qids_setStatus]
        exact hNodup
      · exact le_trans (activeCount_setStatus_inactive ts id TStatus.completed
          (by rintro (h | h) <;> cases h)) hle
    · exact ⟨hNodup, hle⟩
  | failed id =>
    simp only [qnext]
    split_ifs with hg
    · refine ⟨?_, ?_⟩
      · rw [qids_setStatus]
        exact hNodup
      · exact le_trans (activeCount_setStatus_inactive ts id TStatus.error
          (by rintro (h | h) <;> cases h)) hle
    · exact ⟨hNodup, hle⟩
  | cancel id => exact qinv_filter ts _ ⟨hNodup, hle⟩
  | clear ty => exact qinv_filter ts _ ⟨hNodup, hle⟩

lemma runQ_inv (es : List QEvent) (h : ∀ e ∈ es, e.isDirect = false) :
    ∀ ts, QInv ts → QInv (es.foldl qnext ts) := by
  induction es with
  | nil => intro ts hts; exact hts
  | cons e es ih =>
    intro ts hts
    exact ih (fun x hx => h x (List.mem_cons_of_mem e hx)) (qnext ts e)
      (qnext_preserves ts e hts (h e (List.mem_cons_self e es)))

/-- C4 (amended): in the batch-admission subsystem — transfers admitted only
by `uploadFiles` in `pending` status and promoted by the queue-management
effect (which promotes only the first pending transfer, and only while
fewer than `MAX_CONCURRENT_UPLOADS` transfers are `processing`/`merging`)
— every reachable queue state holds at most 5 transfers in `processing` or
`merging` simultaneously.  The original claim fails for the direct
admissions of `uploadFile`/`downloadFile`, which enter in `processing`
status with no bound and not in `pending` (see the counterexample). -/
theorem c4_bound (es : List QEvent) (h : ∀ e ∈ es, e.isDirect = false) :
    activeCount (runQ es) ≤ MAX_CONCURRENT_UPLOADS :=
  (runQ_inv es h [] ⟨List.nodup_nil, by simp [activeCount]⟩).2

def qSixEvents : List QEvent :=
  [QEvent.single ⟨"t1", TDir.upload, TStatus.pending⟩,
   QEvent.single ⟨"t2", TDir.upload, TStatus.pending⟩,
   QEvent.single ⟨"t3", TDir.upload, TStatus.pending⟩,
   QEvent.single ⟨"t4", TDir.upload, TStatus.pending⟩,
   QEvent.single ⟨"t5", TDir.upload, TStatus.pending⟩,
   QEvent.single ⟨"t6", TDir.upload, TStatus.pending⟩]

/-- C4 counterexample: six `uploadFile` admissions in a row: each is admitted
directly with `processing` status — never `pending` — and the resulting
reachable queue state has 6 transfers simultaneously in `processing`,
exceeding the configured limit of 5. -/
theorem c4_counterexample :
    activeCount (runQ qSixEvents) = 6
    ∧ (∀ t ∈ runQ qSixEvents, t.status = TStatus.processing) := by
  decide

/-- C4 witness: a batch admission followed by a scheduling pass stays within
the bound. -/
theorem c4_witness :
    activeCount (runQ [QEvent.batch [⟨"a", TDir.upload, TStatus.pending⟩],
      QEvent.schedule]) ≤ MAX_CONCURRENT_UPLOADS :=
  c4_bound [QEvent.batch [⟨"a", TDir.upload, TStatus.pending⟩], QEvent.schedule]
    (by decide)

/-- C8 (amended): `clearCompletedTransfers` removes exactly the `completed`
entries (of the given direction when one is given) and keeps every other
transfer — in particular `error` entries are NOT removed, contrary to the
claim — and no queue event other than the two explicit removal operations
(`cancel`, `clear`) ever removes a transfer. -/
theorem c8_clear_exact (ts : List QTransfer) (ty : Option TDir) (t : QTransfer)
    (ht : t ∈ ts) :
    (t ∈ clearCompletedTransfers ts ty
      ↔ (t.status ≠ TStatus.completed ∨ ∃ d, ty = some d ∧ t.dir ≠ d))
    ∧ (∀ e : QEvent, e.isRemoval = false → ∀ i, i ∈ qids ts → i ∈ qids (qnext ts e)) := by
  constructor
  · constructor
    · intro hmem
      obtain ⟨-, hp⟩ := List.mem_filter.mp hmem
      by_cases hs : t.status = TStatus.completed
      · rw [if_neg (by simp [hs])] at hp
        cases hty : ty with
        | none =>
          rw [hty] at hp
          cases hp
        | some d =>
          rw [hty] at hp
          right
          exact ⟨d, rfl, by simpa using hp⟩
      · exact Or.inl hs
    · intro hr
      apply List.mem_filter.mpr
      refine ⟨ht, ?_⟩
      by_cases hs : t.status = TStatus.completed
      · rcases hr with hr | ⟨d, hty, hd⟩
        · exact absurd hs hr
        · rw [if_neg (by simp [hs]), hty]
          simpa using hd
      · rw [if_pos hs]
  · intro e he i hi
    cases e with
    | single t' =>
      simp only [qnext]
      split_ifs with hmem
      · exact hi
      · rw [qids_append]
        exact List.mem_append_left _ hi
    | batch l =>
      simp only [qnext]
      split_ifs with hg
      · rw [qids_append]
        exact List.mem_append_left _ hi
      · exact hi
    | schedule =>
      simp only [qnext]
      split_ifs with hg
      · rcases hfind : ts.find? (fun t => t.status = TStatus.pending) with _ | t'
        · simp only [hfind]
          exact hi
        · simp only [hfind]
          rw [qids_setStatus]
          exact hi
      · exact hi
    | chunksDone id =>
      simp only [qnext]
      split_ifs with hg
      · rw [qids_setStatus]
        exact hi
      · exact hi
    | mergeOk id =>
      simp only [qnext]
      split_ifs with hg
      · rw [qids_setStatus]
        exact hi
      · exact hi
    | failed id =>
      simp only [qnext]
      split_ifs with hg
      · rw [qids_setStatus]
        exact hi
      · exact hi
    | cancel id => simp [QEvent.isRemoval] at he
    | clear ty' => simp [QEvent.isRemoval] at he

def qErrT : QTransfer := ⟨"e1", TDir.upload, TStatus.error⟩

/-- C8 counterexample: a transfer in terminal `error` status survives
`clearCompletedTransfers`: the operation does not remove exactly the
terminal (`completed` or `error`) entries, it removes only `completed`
ones. -/
theorem c8_counterexample :
    clearCompletedTransfers [qErrT] none = [qErrT] ∧ qErrT.status = TStatus.error :=
  ⟨rfl, rfl⟩

/-- C8 witness: the amended theorem at a two-transfer list: the `completed`
entry is removed by clear while the `error` entry is kept, and non-removal
events preserve every id. -/
theorem c8_witness :
    ((⟨"b", TDir.upload, TStatus.error⟩ : QTransfer)
        ∈ clearCompletedTransfers
            [⟨"a", TDir.upload, TStatus.completed⟩, ⟨"b", TDir.upload, TStatus.error⟩] none
      ↔ ((⟨"b", TDir.upload, TStatus.error⟩ : QTransfer).status ≠ TStatus.completed
          ∨ ∃ d, (none : Option TDir) = some d
              ∧ (⟨"b", TDir.upload, TStatus.error⟩ : QTransfer).dir ≠ d))
    ∧ (∀ e : QEvent, e.isRemoval = false → ∀ i,
        i ∈ qids [⟨"a", TDir.upload, TStatus.completed⟩,
          ⟨"b", TDir.upload, TStatus.error⟩]
        → i ∈ qids (qnext [⟨"a", TDir.upload, TStatus.completed⟩,
            ⟨"b", TDir.upload, TStatus.error⟩] e)) :=
  c8_clear_exact [⟨"a", TDir.upload, TStatus.completed⟩,
    ⟨"b", TDir.upload, TStatus.error⟩] none ⟨"b", TDir.upload, TStatus.error⟩ (by decide)
